import Mathlib

/-!
Verification of the numeric core of `mpoints/plot_tools.py`.

The module's three numeric transforms are embedded shallowly over `ℝ`:

* the quantile-quantile coordinates built by `qq_plot` (lines 41-46 and 79-92),
* the cross-correlation sequences built by `correlogram` (lines 171-184), whose
  statistical kernel is `statsmodels.tsa.stattools.ccf(x, y, unbiased=True)`,
* the exponential-kernel decay curves built by `kernels_exp` (lines 316-348).

Machine floats are modelled as real numbers; numpy routines that the source
calls (`linspace`, `logspace`, `percentile`, `correlate`, `std`, `min`, `max`)
are embedded from their documented algorithms.  The source contains no
exception-raising validation code, so every embedded transform is a total
function; fallibility appears exactly where a numpy call is undefined
(`percentile` of an empty sequence), modelled with `Option`.
-/

open Filter Topology

namespace PlotTools

/-! ### Embeddings of the numpy primitives used by the source -/

/-- Embedding of `np.linspace(a, b, num=n)` (endpoint included): the `i`-th
point is `a + i*(b-a)/(n-1)`.  For `n = 1` numpy returns `[a]`, which the
formula also yields since `0 * (b - a) / 0 = 0` in Lean's real division. -/
noncomputable def linspace (a b : ℝ) (n : ℕ) : List ℝ :=
  (List.range n).map fun i : ℕ => a + (i : ℝ) * (b - a) / ((n : ℝ) - 1)

/-- Embedding of `np.logspace(a, b, num=n)`, which is `10 ** linspace(a, b, n)`
elementwise (real exponentiation). -/
noncomputable def logspace (a b : ℝ) (n : ℕ) : List ℝ :=
  (linspace a b n).map fun x => (10 : ℝ) ^ x

/-- Embedding of `np.min` on a flat list of values (`0` for the empty list,
on which numpy would fail; all uses below are on non-empty data). -/
noncomputable def npMinL : List ℝ → ℝ
  | [] => 0
  | x :: xs => xs.foldl min x

/-- Embedding of `np.max` on a flat list of values. -/
noncomputable def npMaxL : List ℝ → ℝ
  | [] => 0
  | x :: xs => xs.foldl max x

/-- All entries of a rank-3 tensor, row-major, as numpy enumerates them for
`np.min` / `np.max` of a 3-d array. -/
def flatten3 (t : List (List (List ℝ))) : List ℝ :=
  (t.map List.flatten).flatten

/-! ### KernelDecayEvaluator: embedding of `kernels_exp` (lines 316-348)

The source resolves the time bounds from the decay tensor when the caller
passes `tmax=None` / `tmin=None` (lines 319-326), builds a log-spaced grid
(lines 327-329), and evaluates `a / b * (1 - exp(-b * t))` on it for every
`(e1, x, e2)` triple (lines 338-348). -/

/-- Resolved upper time bound: `tmax` when supplied, else
`-log(0.1) / np.min(decay_coefficients)` (source lines 321-323). -/
noncomputable def resolvedTMax (decay : List (List (List ℝ))) (tmax : Option ℝ) : ℝ :=
  match tmax with
  | some v => v
  | none => -Real.log 0.1 / npMinL (flatten3 decay)

/-- Resolved lower time bound: `tmin` when supplied, else
`-log(0.9) / np.max(decay_coefficients)` (source lines 324-326). -/
noncomputable def resolvedTMin (decay : List (List (List ℝ))) (tmin : Option ℝ) : ℝ :=
  match tmin with
  | some v => v
  | none => -Real.log 0.9 / npMaxL (flatten3 decay)

/-- The time grid of `kernels_exp` (source lines 327-329):
`np.logspace(floor(log10(t_min)), ceil(log10(t_max)), num=npoints)`. -/
noncomputable def kernelsGrid (decay : List (List (List ℝ))) (tmin tmax : Option ℝ)
    (npoints : ℕ) : List ℝ :=
  logspace ((⌊Real.logb 10 (resolvedTMin decay tmin)⌋ : ℤ) : ℝ)
    ((⌈Real.logb 10 (resolvedTMax decay tmax)⌉ : ℤ) : ℝ) npoints

/-- Value of one decay curve at one time: `a / b * (1 - exp(-b * t))`
(source line 348). -/
noncomputable def kernelValue (a b t : ℝ) : ℝ :=
  a / b * (1 - Real.exp (-b * t))

/-- One decay curve evaluated on the whole time grid (source line 348,
vectorised over `tt`). -/
noncomputable def kernelCurve (a b : ℝ) (tt : List ℝ) : List ℝ :=
  tt.map (kernelValue a b)

/-- All decay curves of `kernels_exp`: the loops over `e1`, `e2` (source lines
338-339) and over the state `x` (line 345), reading
`impact_coefficients[e1, x, e2]` and `decay_coefficients[e1, x, e2]`
(lines 346-347).  The event-type count is `shape(impact)[0]` and the state
count `shape(impact)[1]` (lines 316-318). -/
noncomputable def kernelsCurves (impact decay : List (List (List ℝ))) (tt : List ℝ) :
    List (List (List (List ℝ))) :=
  (List.range impact.length).map fun e1 =>
    (List.range impact.length).map fun e2 =>
      (List.range (impact.headD []).length).map fun x =>
        kernelCurve (((impact.getD e1 []).getD x []).getD e2 0)
          (((decay.getD e1 []).getD x []).getD e2 0) tt

/-! ### Basic lemmas about the primitives -/

lemma rangeMap_length {α : Type} (f : ℕ → α) (n : ℕ) :
    ((List.range n).map f).length = n := by
  simp only [List.length_map, List.length_range]

lemma rangeMap_getD {α : Type} (f : ℕ → α) (d : α) {n k : ℕ} (hk : k < n) :
    ((List.range n).map f).getD k d = f k := by
  rw [List.getD_eq_getElem _ _ (by simpa only [List.length_map, List.length_range] using hk)]
  simp only [List.getElem_map, List.getElem_range]

lemma linspace_length (a b : ℝ) (n : ℕ) : (linspace a b n).length = n := by
  rw [linspace]
  exact rangeMap_length _ n

lemma logspace_length (a b : ℝ) (n : ℕ) : (logspace a b n).length = n := by
  rw [logspace]
  simp only [List.length_map]
  exact linspace_length a b n

lemma linspace_getD {a b : ℝ} {n k : ℕ} (hk : k < n) :
    (linspace a b n).getD k 0 = a + k * (b - a) / ((n : ℝ) - 1) := by
  rw [linspace]
  exact rangeMap_getD _ 0 hk

lemma logspace_getD {a b : ℝ} {n k : ℕ} (hk : k < n) :
    (logspace a b n).getD k 0 = (10 : ℝ) ^ (a + k * (b - a) / ((n : ℝ) - 1)) := by
  have h : (logspace a b n) = (List.range n).map
      fun i : ℕ => (10 : ℝ) ^ (a + (i : ℝ) * (b - a) / ((n : ℝ) - 1)) := by
    rw [logspace, linspace, List.map_map]
    rfl
  rw [h]
  exact rangeMap_getD _ 0 hk

/-! ### Numeric bounds on the logarithms appearing in the default time bounds -/

lemma log_ten_lt : Real.log 10 < 2.3105 := by
  have h2 : Real.log 1000 < Real.log 1024 := Real.log_lt_log (by norm_num) (by norm_num)
  have e1 : Real.log 1000 = 3 * Real.log 10 := by
    rw [show (1000 : ℝ) = 10 ^ (3 : ℕ) by norm_num, Real.log_pow]
    norm_num
  have e2 : Real.log 1024 = 10 * Real.log 2 := by
    rw [show (1024 : ℝ) = 2 ^ (10 : ℕ) by norm_num, Real.log_pow]
    norm_num
  have h3 : Real.log 2 < 0.6931471808 := Real.log_two_lt_d9
  linarith

lemma log_ten_gt : 2.3022 < Real.log 10 := by
  have h2 : Real.log (2 ^ (93 : ℕ)) < Real.log (10 ^ (28 : ℕ)) :=
    Real.log_lt_log (by positivity) (by norm_num)
  rw [Real.log_pow, Real.log_pow] at h2
  have h3 : (0.6931471803 : ℝ) < Real.log 2 := Real.log_two_gt_d9
  push_cast at h2
  linarith

lemma neg_log_tenth : -Real.log 0.1 = Real.log 10 := by
  rw [show (0.1 : ℝ) = 10⁻¹ by norm_num, Real.log_inv]
  ring

lemma neg_log_nine_tenths_ge : 1 / 10 ≤ -Real.log 0.9 := by
  have h := Real.log_le_sub_one_of_pos (show (0 : ℝ) < 0.9 by norm_num)
  have e : (0.9 : ℝ) - 1 = -(1 / 10) := by norm_num
  linarith [e ▸ h]

lemma neg_log_nine_tenths_le : -Real.log 0.9 ≤ 1 / 9 := by
  have e : -Real.log 0.9 = Real.log ((0.9 : ℝ)⁻¹) := by rw [Real.log_inv]
  have h := Real.log_le_sub_one_of_pos (show (0 : ℝ) < (0.9 : ℝ)⁻¹ by norm_num)
  have e2 : ((0.9 : ℝ)⁻¹ - 1) = 1 / 9 := by norm_num
  linarith [e ▸ e2 ▸ h]

/-- C4.  KernelDecayEvaluator default time bounds (source lines 319-326): with no
explicit bounds, `t_max = -ln(0.1) / min(decay)` and `t_min = -ln(0.9) / max(decay)`;
for `decay_coefficients = [[[2.0]]]` these are `-ln(0.1)/2 ≈ 1.151` (shown to lie in
`(1.15, 1.16)`) and `-ln(0.9)/2 ≈ 0.0527` (shown to lie in `[0.05, 0.056]`), while an
explicitly supplied `tmin` or `tmax` is used unchanged. -/
theorem kernels_default_time_bounds :
    resolvedTMax [[[2]]] none = -Real.log 0.1 / 2 ∧
    resolvedTMin [[[2]]] none = -Real.log 0.9 / 2 ∧
    1.15 < resolvedTMax [[[2]]] none ∧ resolvedTMax [[[2]]] none < 1.16 ∧
    0.05 ≤ resolvedTMin [[[2]]] none ∧ resolvedTMin [[[2]]] none ≤ 0.056 ∧
    (∀ (d : List (List (List ℝ))) (v : ℝ), resolvedTMax d (some v) = v) ∧
    (∀ (d : List (List (List ℝ))) (v : ℝ), resolvedTMin d (some v) = v) := by
  have e1 : resolvedTMax [[[2]]] none = -Real.log 0.1 / 2 := rfl
  have e2 : resolvedTMin [[[2]]] none = -Real.log 0.9 / 2 := rfl
  refine ⟨e1, e2, ?_, ?_, ?_, ?_, fun d v => rfl, fun d v => rfl⟩
  · rw [e1, neg_log_tenth]
    linarith [log_ten_gt]
  · rw [e1, neg_log_tenth]
    linarith [log_ten_lt]
  · rw [e2]
    linarith [neg_log_nine_tenths_ge]
  · rw [e2]
    linarith [neg_log_nine_tenths_le]

/-- C9.  DecayCurveGrid construction (source lines 327-329): the grid has exactly
`npoints` points, is geometrically spaced (constant ratio `10^((b-a)/(npoints-1))`)
from `10^floor(log10 t_min)` to `10^ceil(log10 t_max)`, its first point is `≤ t_min`,
its last point is `≥ t_max`, and (for `t_min ≤ t_max`) it is monotone, so it covers
`[t_min, t_max]` for every positive `t_min`, `t_max`. -/
theorem grid_construction (d : List (List (List ℝ))) (tmin tmax : ℝ) (n : ℕ) (a b : ℝ)
    (ha : a = ((⌊Real.logb 10 tmin⌋ : ℤ) : ℝ))
    (hb : b = ((⌈Real.logb 10 tmax⌉ : ℤ) : ℝ))
    (htmin : 0 < tmin) (htmax : 0 < tmax) (hn : 2 ≤ n) :
    (kernelsGrid d (some tmin) (some tmax) n).length = n ∧
    (kernelsGrid d (some tmin) (some tmax) n).getD 0 0 = (10 : ℝ) ^ a ∧
    (10 : ℝ) ^ a ≤ tmin ∧
    (kernelsGrid d (some tmin) (some tmax) n).getD (n - 1) 0 = (10 : ℝ) ^ b ∧
    tmax ≤ (10 : ℝ) ^ b ∧
    (∀ i, i + 1 < n →
      (kernelsGrid d (some tmin) (some tmax) n).getD (i + 1) 0 =
        (kernelsGrid d (some tmin) (some tmax) n).getD i 0 *
          (10 : ℝ) ^ ((b - a) / ((n : ℝ) - 1))) ∧
    (tmin ≤ tmax → ∀ i j, i ≤ j → j < n →
      (kernelsGrid d (some tmin) (some tmax) n).getD i 0 ≤
        (kernelsGrid d (some tmin) (some tmax) n).getD j 0) := by
  have hg : kernelsGrid d (some tmin) (some tmax) n = logspace a b n := by
    rw [ha, hb]
    rfl
  have hnR : (2 : ℝ) ≤ (n : ℝ) := by exact_mod_cast hn
  have hne : (n : ℝ) - 1 ≠ 0 := by linarith
  refine ⟨?_, ?_, ?_, ?_, ?_, ?_, ?_⟩
  · rw [hg]
    exact logspace_length a b n
  · rw [hg, logspace_getD (by omega)]
    congr 1
    push_cast
    ring
  · have h1 : a ≤ Real.logb 10 tmin := ha ▸ Int.floor_le _
    calc (10 : ℝ) ^ a ≤ (10 : ℝ) ^ Real.logb 10 tmin :=
          (Real.rpow_le_rpow_left_iff (by norm_num)).mpr h1
      _ = tmin := Real.rpow_logb (by norm_num) (by norm_num) htmin
  · rw [hg, logspace_getD (by omega)]
    congr 1
    rw [Nat.cast_sub (by omega), Nat.cast_one]
    field_simp
  · have h1 : Real.logb 10 tmax ≤ b := hb ▸ Int.le_ceil _
    calc tmax = (10 : ℝ) ^ Real.logb 10 tmax :=
          (Real.rpow_logb (by norm_num) (by norm_num) htmax).symm
      _ ≤ (10 : ℝ) ^ b := (Real.rpow_le_rpow_left_iff (by norm_num)).mpr h1
  · intro i hi
    rw [hg, logspace_getD (by omega), logspace_getD (by omega),
      ← Real.rpow_add (by norm_num : (0 : ℝ) < 10)]
    congr 1
    push_cast
    field_simp
    ring
  · intro hmm i j hij hj
    rw [hg, logspace_getD (by omega), logspace_getD hj]
    apply (Real.rpow_le_rpow_left_iff (by norm_num : (1 : ℝ) < 10)).mpr
    have hba : a ≤ b := by
      have h1 : a ≤ Real.logb 10 tmin := ha ▸ Int.floor_le _
      have h2 : Real.logb 10 tmax ≤ b := hb ▸ Int.le_ceil _
      have h3 : Real.logb 10 tmin ≤ Real.logb 10 tmax :=
        Real.logb_le_logb_of_le (by norm_num) htmin hmm
      linarith
    have hijR : (i : ℝ) ≤ (j : ℝ) := by exact_mod_cast hij
    have hΔ : 0 ≤ (b - a) / ((n : ℝ) - 1) := by
      apply div_nonneg (by linarith) (by linarith)
    simp only [mul_div_assoc]
    have hstep := mul_le_mul_of_nonneg_right hijR hΔ
    linarith

/-- Witness for C9 at `tmin = tmax = 1`, `n = 2`, `a = b = 0`. -/
theorem grid_construction_witness :
    ((0 : ℝ) = ((⌊Real.logb 10 (1 : ℝ)⌋ : ℤ) : ℝ) ∧ (0 : ℝ) < 1 ∧ 2 ≤ 2) ∧
    ((kernelsGrid [] (some 1) (some 1) 2).length = 2 ∧
      (kernelsGrid [] (some 1) (some 1) 2).getD 0 0 = (10 : ℝ) ^ (0 : ℝ) ∧
      (10 : ℝ) ^ (0 : ℝ) ≤ 1 ∧
      (kernelsGrid [] (some 1) (some 1) 2).getD (2 - 1) 0 = (10 : ℝ) ^ (0 : ℝ) ∧
      (1 : ℝ) ≤ (10 : ℝ) ^ (0 : ℝ) ∧
      (∀ i, i + 1 < 2 →
        (kernelsGrid [] (some 1) (some 1) 2).getD (i + 1) 0 =
          (kernelsGrid [] (some 1) (some 1) 2).getD i 0 *
            (10 : ℝ) ^ (((0 : ℝ) - 0) / ((2 : ℕ) - 1 : ℝ)) ) ∧
      ((1 : ℝ) ≤ 1 → ∀ i j, i ≤ j → j < 2 →
        (kernelsGrid [] (some 1) (some 1) 2).getD i 0 ≤
          (kernelsGrid [] (some 1) (some 1) 2).getD j 0)) := by
  have hfloor : (0 : ℝ) = ((⌊Real.logb 10 (1 : ℝ)⌋ : ℤ) : ℝ) := by
    rw [Real.logb_one, Int.floor_zero]
    norm_num
  have hceil : (0 : ℝ) = ((⌈Real.logb 10 (1 : ℝ)⌉ : ℤ) : ℝ) := by
    rw [Real.logb_one, Int.ceil_zero]
    norm_num
  exact ⟨⟨hfloor, by norm_num, le_refl 2⟩,
    grid_construction [] 1 1 2 0 0 hfloor hceil (by norm_num) (by norm_num) (le_refl 2)⟩

lemma kernel_tail_bound (a b c : ℝ) (ha : 0 < a) (hb : 0 < b) (hc : 0 < c) (hcb : c ≤ b) :
    |kernelValue a b (Real.log 10 / c) - a / b| ≤ 0.1 * (a / b) := by
  have hlog10 : 0 < Real.log 10 := Real.log_pos (by norm_num)
  have hq : 0 < Real.log 10 / c := div_pos hlog10 hc
  have hexp : Real.exp (-b * (Real.log 10 / c)) ≤ 1 / 10 := by
    have harg : -b * (Real.log 10 / c) ≤ -Real.log 10 := by
      have hcc : Real.log 10 = c * (Real.log 10 / c) := by
        field_simp
      nlinarith [mul_le_mul_of_nonneg_right hcb (le_of_lt hq)]
    calc Real.exp (-b * (Real.log 10 / c))
        ≤ Real.exp (-Real.log 10) := Real.exp_le_exp.mpr harg
      _ = 1 / 10 := by
          rw [Real.exp_neg, Real.exp_log (by norm_num : (0 : ℝ) < 10)]
          norm_num
  have hval : kernelValue a b (Real.log 10 / c) - a / b =
      -(a / b * Real.exp (-b * (Real.log 10 / c))) := by
    rw [kernelValue]
    ring
  rw [hval, abs_neg, abs_of_nonneg (by positivity)]
  have hab : 0 < a / b := div_pos ha hb
  calc a / b * Real.exp (-b * (Real.log 10 / c))
      ≤ a / b * (1 / 10) := mul_le_mul_of_nonneg_left hexp (le_of_lt hab)
    _ = 0.1 * (a / b) := by ring

/-- C3.  KernelDecayEvaluator values (source lines 345-348): for impact `a > 0` and
decay `b > 0` the curve value at each grid time `t` is `a/b * (1 - exp(-b*t))`;
this vanishes at `t = 0`, is strictly increasing, tends to the asymptote `a/b`,
and at the default `t_max = -ln(0.1)/min(decay)` it is within 10% of `a/b`
whenever `b` is at least `min(decay) > 0`. -/
theorem kernel_decay_values (a b : ℝ) (tt : List ℝ) (k : ℕ)
    (ha : 0 < a) (hb : 0 < b) (hk : k < tt.length) :
    (kernelCurve a b tt).getD k 0 = a / b * (1 - Real.exp (-b * tt.getD k 0)) ∧
    kernelValue a b 0 = 0 ∧
    StrictMono (kernelValue a b) ∧
    Filter.Tendsto (kernelValue a b) Filter.atTop (nhds (a / b)) ∧
    (∀ decay : List (List (List ℝ)), 0 < npMinL (flatten3 decay) →
      npMinL (flatten3 decay) ≤ b →
      |kernelValue a b (resolvedTMax decay none) - a / b| ≤ 0.1 * (a / b)) := by
  refine ⟨?_, ?_, ?_, ?_, ?_⟩
  · rw [kernelCurve, List.getD_eq_getElem _ _ (by simpa using hk), List.getElem_map,
      ← List.getD_eq_getElem tt 0 hk]
    rfl
  · rw [kernelValue]
    simp
  · intro s t hst
    have h1 : Real.exp (-b * t) < Real.exp (-b * s) := Real.exp_lt_exp.mpr (by nlinarith)
    have h2 : 0 < a / b := div_pos ha hb
    rw [kernelValue, kernelValue]
    nlinarith
  · have hcomp := tendsto_neg_atTop_atBot.comp (Filter.Tendsto.const_mul_atTop hb tendsto_id)
    have h1 : Tendsto (fun t : ℝ => -b * t) atTop atBot :=
      Filter.Tendsto.congr (fun x => by simp [neg_mul]) hcomp
    have h2 : Tendsto (fun t : ℝ => Real.exp (-b * t)) atTop (nhds 0) :=
      Real.tendsto_exp_atBot.comp h1
    have h3 : Tendsto (fun t : ℝ => a / b * (1 - Real.exp (-b * t))) atTop
        (nhds (a / b * (1 - 0))) := (tendsto_const_nhds.sub h2).const_mul _
    have he : a / b * (1 - 0) = a / b := by ring
    rw [he] at h3
    exact h3
  · intro decay hβ hβb
    have htm : resolvedTMax decay none = Real.log 10 / npMinL (flatten3 decay) := by
      have e : resolvedTMax decay none = -Real.log 0.1 / npMinL (flatten3 decay) := rfl
      rw [e, neg_log_tenth]
    rw [htm]
    exact kernel_tail_bound a b (npMinL (flatten3 decay)) ha hb hβ hβb

/-- Witness for C3 at `a = 2`, `b = 1`, grid `[0]`, `decay = [[[1]]]`. -/
theorem kernel_decay_values_witness :
    ((0 : ℝ) < 2 ∧ (0 : ℝ) < 1 ∧ 0 < ([0] : List ℝ).length) ∧
    ((kernelCurve 2 1 [0]).getD 0 0 = 2 / 1 * (1 - Real.exp (-1 * ([0] : List ℝ).getD 0 0)) ∧
      kernelValue 2 1 0 = 0 ∧
      StrictMono (kernelValue 2 1) ∧
      Filter.Tendsto (kernelValue 2 1) Filter.atTop (nhds (2 / 1)) ∧
      (∀ decay : List (List (List ℝ)), 0 < npMinL (flatten3 decay) →
        npMinL (flatten3 decay) ≤ 1 →
        |kernelValue 2 1 (resolvedTMax decay none) - 2 / 1| ≤ 0.1 * (2 / 1))) :=
  ⟨⟨by norm_num, by norm_num, by norm_num⟩,
    kernel_decay_values 2 1 [0] 0 (by norm_num) (by norm_num) (by norm_num)⟩

/-- C7 counterexample.  The source performs no input validation: with explicitly
supplied bounds `tmin = 10`, `tmax = 1` the resolved bounds satisfy
`t_min ≥ t_max`, where the claim requires an InvalidInputError to be raised
before producing any output — yet `kernels_exp` raises nothing (the source
contains no raise statement and no InvalidInputError class at all) and returns
a fully-formed grid `[10, √10, 1]` together with its curve family. -/
theorem kernels_no_validation_counterexample :
    resolvedTMax [[[1]]] (some 1) ≤ resolvedTMin [[[1]]] (some 10) ∧
    kernelsGrid [[[1]]] (some 10) (some 1) 3 = [10, Real.sqrt 10, 1] ∧
    (kernelsCurves [[[1]]] [[[1]]] (kernelsGrid [[[1]]] (some 10) (some 1) 3)).length = 1 := by
  have e1 : resolvedTMin [[[ (1 : ℝ) ]]] (some 10) = 10 := rfl
  have e2 : resolvedTMax [[[ (1 : ℝ) ]]] (some 1) = 1 := rfl
  have hfloor : ((⌊Real.logb 10 (10 : ℝ)⌋ : ℤ) : ℝ) = 1 := by
    rw [Real.logb_self_eq_one (by norm_num)]
    norm_num
  have hceil : ((⌈Real.logb 10 (1 : ℝ)⌉ : ℤ) : ℝ) = 0 := by
    rw [Real.logb_one, Int.ceil_zero]
    norm_num
  have hgrid : kernelsGrid [[[1]]] (some 10) (some 1) 3 = logspace 1 0 3 := by
    rw [kernelsGrid, e1, e2, hfloor, hceil]
  refine ⟨by rw [e1, e2]; norm_num, ?_, ?_⟩
  · have hlin : linspace 1 0 3 = [1, 1 / 2, 0] := by
      rw [linspace, show List.range 3 = [0, 1, 2] from rfl]
      simp only [List.map_cons, List.map_nil]
      norm_num
    rw [hgrid, logspace, hlin]
    simp only [List.map_cons, List.map_nil]
    rw [Real.rpow_one, Real.rpow_zero, show ((1 : ℝ) / 2) = (1 / (2 : ℝ)) from rfl,
      ← Real.sqrt_eq_rpow]
  · rw [kernelsCurves]
    exact rangeMap_length _ _

/-- C7 amended.  The evaluator performs no input validation at all: for every
input — in particular when the resolved bounds satisfy `t_min ≥ t_max` — no
error is raised; it always returns a grid of exactly `npoints` points and, for
every `(e1, x, e2)` triple, the curve `t ↦ impact/decay * (1 - exp(-decay*t))`
evaluated on that grid.  (Non-positive decay values also raise nothing in the
source; they merely produce non-finite floats, outside this real-valued model.) -/
theorem kernels_no_validation_amended (impact decay : List (List (List ℝ)))
    (tmin tmax : Option ℝ) (n : ℕ) (e1 e2 x : ℕ)
    (he1 : e1 < impact.length) (he2 : e2 < impact.length)
    (hx : x < (impact.headD []).length) :
    (kernelsGrid decay tmin tmax n).length = n ∧
    (kernelsCurves impact decay (kernelsGrid decay tmin tmax n)).length = impact.length ∧
    (((kernelsCurves impact decay (kernelsGrid decay tmin tmax n)).getD e1 []).getD e2
        []).getD x []
      = kernelCurve (((impact.getD e1 []).getD x []).getD e2 0)
          (((decay.getD e1 []).getD x []).getD e2 0) (kernelsGrid decay tmin tmax n) := by
  refine ⟨logspace_length _ _ _, ?_, ?_⟩
  · rw [kernelsCurves]
    exact rangeMap_length _ _
  · rw [kernelsCurves, rangeMap_getD _ _ he1, rangeMap_getD _ _ he2, rangeMap_getD _ _ hx]

/-- Witness for the amended C7 at a concrete input with `t_min ≥ t_max`. -/
theorem kernels_no_validation_amended_witness :
    (0 < ([[[(1 : ℝ)]]] : List (List (List ℝ))).length ∧
      0 < (([[[(1 : ℝ)]]] : List (List (List ℝ))).headD []).length) ∧
    ((kernelsGrid [[[2]]] (some 10) (some 1) 4).length = 4 ∧
      (kernelsCurves [[[1]]] [[[2]]] (kernelsGrid [[[2]]] (some 10) (some 1) 4)).length =
        ([[[(1 : ℝ)]]] : List (List (List ℝ))).length ∧
      (((kernelsCurves [[[1]]] [[[2]]] (kernelsGrid [[[2]]] (some 10) (some 1) 4)).getD 0
            []).getD 0 []).getD 0 []
        = kernelCurve ((([[[(1 : ℝ)]]].getD 0 []).getD 0 []).getD 0 0)
            ((([[[(2 : ℝ)]]].getD 0 []).getD 0 []).getD 0 0)
            (kernelsGrid [[[2]]] (some 10) (some 1) 4)) :=
  ⟨⟨by simp, by simp⟩,
    kernels_no_validation_amended [[[1]]] [[[2]]] (some 10) (some 1) 4 0 0 0
      (by simp) (by simp) (by simp)⟩

/-! ### CrossCorrelationEstimator: embedding of `correlogram` (source lines 171-184)

The source truncates the two residual sequences of a pair to the length of the
shorter one and calls `statsmodels.tsa.stattools.ccf(x, y, unbiased=True)`,
then slices `ccf[0:n_lags+1]` for plotting.  The statsmodels routine (the
spelling `unbiased=` is the pre-0.12 statsmodels keyword, as the spec's design
note records) computes `ccovf(x, y, unbiased=True, demean=True) / (std(x) * std(y))`
where `ccovf` is `(np.correlate(x - mean x, y - mean y, 'full') / d)[n-1:]` and
`d = np.correlate(ones(n), ones(n), 'full')`.  All of that is embedded below. -/

/-- Embedding of `np.mean`. -/
noncomputable def npMean (l : List ℝ) : ℝ := l.sum / l.length

/-- Embedding of `np.std` (population standard deviation, `ddof = 0`). -/
noncomputable def npStd (l : List ℝ) : ℝ :=
  Real.sqrt ((l.map fun x => (x - npMean l) ^ 2).sum / l.length)

/-- Mean-centering step of statsmodels `ccovf` (`demean=True`). -/
noncomputable def demean (l : List ℝ) : List ℝ := l.map fun x => x - npMean l

/-- Embedding of `np.correlate(a, v, 'full')`: the output has `|a| + |v| - 1`
entries and entry `j` is `∑ t, a[t + j - (|v| - 1)] * v[t]` over the indices `t`
for which both subscripts are in range. -/
noncomputable def npCorrelateFull (a v : List ℝ) : List ℝ :=
  (List.range (a.length + v.length - 1)).map fun j : ℕ =>
    ∑ t ∈ Finset.range v.length,
      if 0 ≤ (t : ℤ) + (j : ℤ) - ((v.length : ℤ) - 1) ∧
          (t : ℤ) + (j : ℤ) - ((v.length : ℤ) - 1) < (a.length : ℤ)
      then a.getD ((t : ℤ) + (j : ℤ) - ((v.length : ℤ) - 1)).toNat 0 * v.getD t 0
      else 0

/-- Embedding of statsmodels `ccovf(x, y, unbiased=True, demean=True)`:
mean-center both series, divide the full correlation elementwise by the
triangle `np.correlate(ones(n), ones(n), 'full')`, and keep the slice `[n-1:]`
(non-negative lags). -/
noncomputable def ccovf (x y : List ℝ) : List ℝ :=
  (List.zipWith (· / ·) (npCorrelateFull (demean x) (demean y))
    (npCorrelateFull (List.replicate x.length 1) (List.replicate x.length 1))).drop
    (x.length - 1)

/-- Embedding of statsmodels `ccf(x, y, unbiased=True)`:
`ccovf(x, y) / (np.std(x) * np.std(y))`. -/
noncomputable def ccf (x y : List ℝ) : List ℝ :=
  (ccovf x y).map fun c => c / (npStd x * npStd y)

/-- Python slice `l[0:e]` with Python's negative-endpoint semantics:
for `e ≥ 0` the first `e` elements, otherwise all but the last `|e|`. -/
def pySliceTo (l : List ℝ) (e : ℤ) : List ℝ :=
  if 0 ≤ e then l.take e.toNat else l.take ((l.length : ℤ) + e).toNat

/-- The per-pair computation of `correlogram` (source lines 172-176): truncate
both sequences to the length of the shorter one, apply `ccf`, and slice
`ccf[0:n_lags+1]`. -/
noncomputable def correlogramPair (a b : List ℝ) (nlags : ℤ) : List ℝ :=
  pySliceTo
    (ccf (a.take (min a.length b.length)) (b.take (min a.length b.length)))
    (nlags + 1)

/-- The whole single-model `correlogram` numeric core: one sequence per subplot
cell `(i, j)` with `i, j` ranging over the event types (source lines 159-177). -/
noncomputable def correlogramSingle (residuals : List (List ℝ)) (nlags : ℤ) :
    List (List (List ℝ)) :=
  (List.range residuals.length).map fun i =>
    (List.range residuals.length).map fun j =>
      correlogramPair (residuals.getD i []) (residuals.getD j []) nlags

/-- The multi-model `correlogram` numeric core: per cell `(i, j)`, one sequence
per model, truncation length computed per model (source lines 178-184);
`dim = len(residuals[0])` per lines 144-146. -/
noncomputable def correlogramMulti (models : List (List (List ℝ))) (nlags : ℤ) :
    List (List (List (List ℝ))) :=
  (List.range (models.headD []).length).map fun i =>
    (List.range (models.headD []).length).map fun j =>
      (List.range models.length).map fun m =>
        correlogramPair ((models.getD m []).getD i []) ((models.getD m []).getD j []) nlags

/-! ### Lemmas on the cross-correlation embedding -/

lemma demean_length (l : List ℝ) : (demean l).length = l.length := by
  simp only [demean, List.length_map]

lemma demean_getD {l : List ℝ} {i : ℕ} (hi : i < l.length) :
    (demean l).getD i 0 = l.getD i 0 - npMean l := by
  rw [demean, List.getD_eq_getElem _ _ (by simpa using hi), List.getElem_map,
    ← List.getD_eq_getElem l 0 hi]

lemma npCorrelateFull_length (a v : List ℝ) :
    (npCorrelateFull a v).length = a.length + v.length - 1 :=
  rangeMap_length _ _

lemma npCorrelateFull_getD_lag {a v : List ℝ} (h : a.length = v.length) {k : ℕ}
    (hk : k < v.length) :
    (npCorrelateFull a v).getD (v.length - 1 + k) 0 =
      ∑ t ∈ Finset.range (v.length - k), a.getD (t + k) 0 * v.getD t 0 := by
  have h1 : 1 ≤ v.length := by omega
  rw [npCorrelateFull, rangeMap_getD _ _ (by omega)]
  have hcast : ∀ t : ℕ, (t : ℤ) + ((v.length - 1 + k : ℕ) : ℤ) - ((v.length : ℤ) - 1) =
      ((t + k : ℕ) : ℤ) := by
    intro t
    push_cast [Nat.cast_sub h1]
    ring
  have hcong : ∀ t ∈ Finset.range v.length,
      (if 0 ≤ (t : ℤ) + ((v.length - 1 + k : ℕ) : ℤ) - ((v.length : ℤ) - 1) ∧
          (t : ℤ) + ((v.length - 1 + k : ℕ) : ℤ) - ((v.length : ℤ) - 1) < (a.length : ℤ)
        then a.getD ((t : ℤ) + ((v.length - 1 + k : ℕ) : ℤ) - ((v.length : ℤ) - 1)).toNat 0 *
          v.getD t 0
        else 0) =
      if t + k < v.length then a.getD (t + k) 0 * v.getD t 0 else 0 := by
    intro t _
    rw [hcast t]
    simp only [Int.toNat_natCast, Int.natCast_nonneg, true_and, Nat.cast_lt, h]
  rw [Finset.sum_congr rfl hcong, ← Finset.sum_filter]
  congr 1
  ext t
  simp only [Finset.mem_filter, Finset.mem_range]
  omega

lemma npCorrelateFull_ones_getD {n k : ℕ} (hk : k < n) :
    (npCorrelateFull (List.replicate n (1 : ℝ)) (List.replicate n 1)).getD
      (n - 1 + k) 0 = ((n - k : ℕ) : ℝ) := by
  have h : (List.replicate n (1 : ℝ)).length = (List.replicate n (1 : ℝ)).length := rfl
  have hlen : (List.replicate n (1 : ℝ)).length = n := List.length_replicate n 1
  rw [show n - 1 + k = (List.replicate n (1 : ℝ)).length - 1 + k by rw [hlen],
    npCorrelateFull_getD_lag h (by rwa [hlen]), hlen]
  have hterm : ∀ t ∈ Finset.range (n - k),
      (List.replicate n (1 : ℝ)).getD (t + k) 0 * (List.replicate n (1 : ℝ)).getD t 0 = 1 := by
    intro t ht
    rw [Finset.mem_range] at ht
    rw [List.getD_eq_getElem _ _ (by simpa using by omega : t + k < (List.replicate n (1 : ℝ)).length),
      List.getD_eq_getElem _ _ (by simpa using by omega : t < (List.replicate n (1 : ℝ)).length)]
    simp
  rw [Finset.sum_congr rfl hterm, Finset.sum_const, Finset.card_range]
  simp

lemma ccovf_length {x y : List ℝ} (h : x.length = y.length) :
    (ccovf x y).length = x.length := by
  rw [ccovf, List.length_drop, List.length_zipWith, npCorrelateFull_length,
    npCorrelateFull_length, demean_length, demean_length, List.length_replicate, ← h]
  omega

lemma ccf_length {x y : List ℝ} (h : x.length = y.length) :
    (ccf x y).length = x.length := by
  rw [ccf, List.length_map, ccovf_length h]

lemma ccovf_getD {x y : List ℝ} (h : x.length = y.length) {k : ℕ} (hk : k < x.length) :
    (ccovf x y).getD k 0 =
      (∑ t ∈ Finset.range (x.length - k),
        (x.getD (t + k) 0 - npMean x) * (y.getD t 0 - npMean y)) /
      ((x.length - k : ℕ) : ℝ) := by
  have h1 : 1 ≤ x.length := by omega
  have hzl : (List.zipWith (· / ·) (npCorrelateFull (demean x) (demean y))
      (npCorrelateFull (List.replicate x.length 1) (List.replicate x.length 1))).length =
      x.length + x.length - 1 := by
    rw [List.length_zipWith, npCorrelateFull_length, npCorrelateFull_length,
      demean_length, demean_length, List.length_replicate, ← h]
    omega
  have hidx : x.length - 1 + k < x.length + x.length - 1 := by omega
  rw [ccovf, List.getD_eq_getElem _ _ (by rw [List.length_drop, hzl]; omega),
    List.getElem_drop, List.getElem_zipWith]
  have hc : (npCorrelateFull (demean x) (demean y)).getD (x.length - 1 + k) 0 =
      ∑ t ∈ Finset.range (x.length - k),
        (x.getD (t + k) 0 - npMean x) * (y.getD t 0 - npMean y) := by
    have hdl : (demean y).length = x.length := by rw [demean_length, h]
    rw [show x.length - 1 + k = (demean y).length - 1 + k by rw [hdl],
      npCorrelateFull_getD_lag (by rw [demean_length, demean_length, h]) (by rwa [hdl]), hdl]
    apply Finset.sum_congr rfl
    intro t ht
    rw [Finset.mem_range] at ht
    rw [demean_getD (by omega), demean_getD (by omega : t < y.length)]
  have hd : (npCorrelateFull (List.replicate x.length (1 : ℝ))
      (List.replicate x.length 1)).getD (x.length - 1 + k) 0 = ((x.length - k : ℕ) : ℝ) :=
    npCorrelateFull_ones_getD hk
  rw [← List.getD_eq_getElem _ 0, ← List.getD_eq_getElem _ 0, hc, hd]

lemma ccf_getD {x y : List ℝ} (h : x.length = y.length) {k : ℕ} (hk : k < x.length) :
    (ccf x y).getD k 0 =
      (∑ t ∈ Finset.range (x.length - k),
        (x.getD (t + k) 0 - npMean x) * (y.getD t 0 - npMean y)) /
      (((x.length - k : ℕ) : ℝ) * (npStd x * npStd y)) := by
  rw [ccf, List.getD_eq_getElem _ _ (by rw [List.length_map, ccovf_length h]; omega),
    List.getElem_map, ← List.getD_eq_getElem _ 0 (by rw [ccovf_length h]; omega),
    ccovf_getD h hk, div_div]

/-- Stated from the spec's words for comparison (claim C2 / design note §9):
lag-`k` cross-correlation of the pair `(a, b)` with the SECOND sequence shifted
by the lag: `∑_t (a[t]-mean_a)(b[t+k]-mean_b) / ((n-k) * std_a * std_b)`. -/
noncomputable def specUnbiasedCCF (a b : List ℝ) (k : ℕ) : ℝ :=
  (∑ t ∈ Finset.range (a.length - k),
    (a.getD t 0 - npMean a) * (b.getD (t + k) 0 - npMean b)) /
  (((a.length - k : ℕ) : ℝ) * (npStd a * npStd b))

lemma npMean_a : npMean [1, 0, 0] = 1 / 3 := by
  rw [npMean]
  norm_num

lemma npMean_b : npMean [0, 1, 0] = 1 / 3 := by
  rw [npMean]
  norm_num

lemma npStd_ab : npStd [1, 0, 0] * npStd [0, 1, 0] = 2 / 9 := by
  have hsa : npStd [1, 0, 0] = Real.sqrt (2 / 9) := by
    rw [npStd, npMean_a]
    congr 1
    norm_num
  have hsb : npStd [0, 1, 0] = Real.sqrt (2 / 9) := by
    rw [npStd, npMean_b]
    congr 1
    norm_num
  rw [hsa, hsb]
  exact Real.mul_self_sqrt (by norm_num)

/-- C2 counterexample.  The claim's formula shifts the second sequence of the
pair by the lag, but `ccf` (hence the estimator) shifts the first: on the pair
`a = [1,0,0]`, `b = [0,1,0]` at lag 1 the code computes
`((a[1]-m)(b[0]-m) + (a[2]-m)(b[1]-m)) / (2·σ_a·σ_b) = -1/4`, while
the claim's formula gives `((a[0]-m)(b[1]-m) + (a[1]-m)(b[2]-m)) / (2·σ_a·σ_b) = 5/4`. -/
theorem ccf_shift_counterexample :
    (ccf [1, 0, 0] [0, 1, 0]).getD 1 0 = -(1 / 4) ∧
    specUnbiasedCCF [1, 0, 0] [0, 1, 0] 1 = 5 / 4 ∧
    (ccf [1, 0, 0] [0, 1, 0]).getD 1 0 ≠ specUnbiasedCCF [1, 0, 0] [0, 1, 0] 1 := by
  have h1 : (ccf [1, 0, 0] [0, 1, 0]).getD 1 0 = -(1 / 4) := by
    rw [ccf_getD (by simp) (by simp)]
    simp only [npMean_a, npMean_b, npStd_ab, List.length_cons, List.length_nil]
    rw [show (0 + 1 + 1 + 1 - 1 : ℕ) = 2 from rfl, Finset.sum_range_succ,
      Finset.sum_range_succ, Finset.sum_range_zero]
    norm_num [List.getD]
  have h2 : specUnbiasedCCF [1, 0, 0] [0, 1, 0] 1 = 5 / 4 := by
    rw [specUnbiasedCCF]
    simp only [npMean_a, npMean_b, npStd_ab, List.length_cons, List.length_nil]
    rw [show (0 + 1 + 1 + 1 - 1 : ℕ) = 2 from rfl, Finset.sum_range_succ,
      Finset.sum_range_succ, Finset.sum_range_zero]
    norm_num [List.getD]
  exact ⟨h1, h2, by rw [h1, h2]; norm_num⟩

/-- C2 amended.  For every pair of truncated, equal-length-`n` residual
sequences `x` and `y` and every lag `k ≤ n-1` covered by the requested lag
count, the lag-`k` output of the estimator is the unbiased empirical
cross-correlation with the FIRST sequence shifted by the lag:
`∑_{t=0}^{n-k-1} (x[t+k]-mean_x)(y[t]-mean_y) / ((n-k) * std_x * std_y)` —
normalized by `n - k` rather than `n`, with population standard deviations
(the claim's formula instead shifts the second sequence, i.e. computes the
estimator with its two arguments transposed). -/
theorem ccf_unbiased_amended (x y : List ℝ) (k : ℕ) (nl : ℤ)
    (h : x.length = y.length) (hk : k < x.length) (hnl : (k : ℤ) < nl + 1) :
    (correlogramPair x y nl).getD k 0 =
      (∑ t ∈ Finset.range (x.length - k),
        (x.getD (t + k) 0 - npMean x) * (y.getD t 0 - npMean y)) /
      (((x.length - k : ℕ) : ℝ) * (npStd x * npStd y)) := by
  have hm : min x.length y.length = x.length := by
    rw [h]
    exact Nat.min_self _
  have hx : x.take (min x.length y.length) = x := by
    rw [hm]
    exact List.take_length x
  have hy : y.take (min x.length y.length) = y := by
    rw [hm, h]
    exact List.take_length y
  have he : 0 ≤ nl + 1 := by omega
  rw [correlogramPair, hx, hy, pySliceTo, if_pos he,
    List.getD_eq_getElem _ _ (by rw [List.length_take, ccf_length h]; omega),
    List.getElem_take, ← List.getD_eq_getElem _ 0 (by rw [ccf_length h]; omega)]
  exact ccf_getD h hk

/-- Witness for the amended C2 at `x = [1,0,0]`, `y = [0,1,0]`, `k = 1`, `n_lags = 2`. -/
theorem ccf_unbiased_amended_witness :
    (([1, 0, 0] : List ℝ).length = ([0, 1, 0] : List ℝ).length ∧
      1 < ([1, 0, 0] : List ℝ).length ∧ ((1 : ℕ) : ℤ) < 2 + 1) ∧
    (correlogramPair [1, 0, 0] [0, 1, 0] 2).getD 1 0 =
      (∑ t ∈ Finset.range (([1, 0, 0] : List ℝ).length - 1),
        (([1, 0, 0] : List ℝ).getD (t + 1) 0 - npMean [1, 0, 0]) *
          (([0, 1, 0] : List ℝ).getD t 0 - npMean [0, 1, 0])) /
      (((([1, 0, 0] : List ℝ).length - 1 : ℕ) : ℝ) * (npStd [1, 0, 0] * npStd [0, 1, 0])) :=
  ⟨⟨by simp, by simp, by norm_num⟩,
    ccf_unbiased_amended [1, 0, 0] [0, 1, 0] 1 2 (by simp) (by simp) (by norm_num)⟩

/-- C5.  Truncation policy (source lines 172-174 and 180-182): before any
cross-correlation, both sequences of the pair are truncated to the length of
the shorter one, keeping their first `min(len(a), len(b))` elements — the
estimator's output depends only on those prefixes — and every cell of the
single-model grid and every (cell, model) of the multi-model grid is exactly
such a per-pair (per-model) computation. -/
theorem truncation_policy (a b : List ℝ) (nl : ℤ) (residuals : List (List ℝ))
    (models : List (List (List ℝ))) (i j m : ℕ)
    (hi : i < residuals.length) (hj : j < residuals.length)
    (hi2 : i < (models.headD []).length) (hj2 : j < (models.headD []).length)
    (hm : m < models.length) :
    correlogramPair a b nl =
      correlogramPair (a.take (min a.length b.length)) (b.take (min a.length b.length)) nl ∧
    ((correlogramSingle residuals nl).getD i []).getD j [] =
      correlogramPair (residuals.getD i []) (residuals.getD j []) nl ∧
    (((correlogramMulti models nl).getD i []).getD j []).getD m [] =
      correlogramPair ((models.getD m []).getD i []) ((models.getD m []).getD j []) nl := by
  refine ⟨?_, ?_, ?_⟩
  · have hlen : min (a.take (min a.length b.length)).length
        (b.take (min a.length b.length)).length = min a.length b.length := by
      rw [List.length_take, List.length_take]
      omega
    rw [correlogramPair, correlogramPair, hlen, List.take_take, List.take_take]
    rw [Nat.min_self]
  · rw [correlogramSingle, rangeMap_getD _ _ hi, rangeMap_getD _ _ hj]
  · rw [correlogramMulti, rangeMap_getD _ _ hi2, rangeMap_getD _ _ hj2, rangeMap_getD _ _ hm]

/-- Witness for C5 at concrete unequal-length sequences and concrete grids. -/
theorem truncation_policy_witness :
    (0 < ([[1], [2]] : List (List ℝ)).length ∧ 1 < ([[1], [2]] : List (List ℝ)).length ∧
      0 < (([[[1], [2]]] : List (List (List ℝ))).headD []).length ∧
      1 < (([[[1], [2]]] : List (List (List ℝ))).headD []).length ∧
      0 < ([[[1], [2]]] : List (List (List ℝ))).length) ∧
    (correlogramPair [1, 2, 3] [4, 5] 1 =
      correlogramPair (([1, 2, 3] : List ℝ).take (min ([1, 2, 3] : List ℝ).length
          ([4, 5] : List ℝ).length))
        (([4, 5] : List ℝ).take (min ([1, 2, 3] : List ℝ).length ([4, 5] : List ℝ).length)) 1 ∧
      ((correlogramSingle [[1], [2]] 1).getD 0 []).getD 1 [] =
        correlogramPair (([[1], [2]] : List (List ℝ)).getD 0 [])
          (([[1], [2]] : List (List ℝ)).getD 1 []) 1 ∧
      (((correlogramMulti [[[1], [2]]] 1).getD 0 []).getD 1 []).getD 0 [] =
        correlogramPair ((([[[1], [2]]] : List (List (List ℝ))).getD 0 []).getD 0 [])
          ((([[[1], [2]]] : List (List (List ℝ))).getD 0 []).getD 1 []) 1) :=
  ⟨⟨by simp, by simp, by simp, by simp, by simp⟩,
    truncation_policy [1, 2, 3] [4, 5] 1 [[1], [2]] [[[1], [2]]] 0 1 0
      (by simp) (by simp) (by simp) (by simp) (by simp)⟩

/-- C6 counterexample.  The source performs no lag validation: with sequences
of common length 3 and `n_lags = 5` (which exceeds `max_length - 1 = 2`) the
claim requires an InvalidInputError, yet the code raises nothing (the source
contains no raise statement) and returns the full length-3 sequence, whose
length differs from the `n_lags + 1 = 6` a valid call would produce; with
`n_lags = -1` it likewise raises nothing and returns the empty slice. -/
theorem lag_validation_counterexample :
    (correlogramPair [1, 2, 3] [1, 2, 3] 5).length = 3 ∧ (3 : ℕ) ≠ 5 + 1 ∧
    correlogramPair [1, 2, 3] [1, 2, 3] (-1) = [] := by
  have hm : min ([1, 2, 3] : List ℝ).length ([1, 2, 3] : List ℝ).length = 3 := by simp
  have hcl : (ccf (([1, 2, 3] : List ℝ).take 3) (([1, 2, 3] : List ℝ).take 3)).length = 3 := by
    rw [ccf_length (by simp)]
    simp
  refine ⟨?_, by norm_num, ?_⟩
  · rw [correlogramPair, hm, pySliceTo, if_pos (by norm_num), List.length_take, hcl]
    omega
  · rw [correlogramPair, hm, pySliceTo]
    norm_num

/-- C6 amended.  For every `0 ≤ n_lags ≤ max_length - 1` the result is exactly
the first `n_lags + 1` entries of the full cross-correlation sequence (so it
has length `n_lags + 1`, covering lags `0..n_lags`, and `n_lags = 0` yields a
length-1 sequence); out-of-range lag counts raise no error: `n_lags >
max_length - 1` returns the whole length-`max_length` sequence and negative
`n_lags` returns the Python slice `ccf[0:n_lags+1]`. -/
theorem lag_slice_amended (a b : List ℝ) (nl : ℤ) (h0 : 0 ≤ nl)
    (hub : nl ≤ (min a.length b.length : ℤ) - 1) :
    correlogramPair a b nl =
      (ccf (a.take (min a.length b.length)) (b.take (min a.length b.length))).take
        (nl + 1).toNat ∧
    (correlogramPair a b nl).length = (nl + 1).toNat := by
  have hcl : (ccf (a.take (min a.length b.length)) (b.take (min a.length b.length))).length =
      min a.length b.length := by
    rw [ccf_length (by rw [List.length_take, List.length_take]; omega), List.length_take]
    omega
  have he : correlogramPair a b nl =
      (ccf (a.take (min a.length b.length)) (b.take (min a.length b.length))).take
        (nl + 1).toNat := by
    rw [correlogramPair, pySliceTo, if_pos (by omega)]
  refine ⟨he, ?_⟩
  rw [he, List.length_take, hcl]
  omega

/-- Witness for the amended C6 at `a = [1,2]`, `b = [5,6,7]`, `n_lags = 1`. -/
theorem lag_slice_amended_witness :
    ((0 : ℤ) ≤ 1 ∧ (1 : ℤ) ≤ (min ([1, 2] : List ℝ).length ([5, 6, 7] : List ℝ).length : ℤ) - 1) ∧
    (correlogramPair [1, 2] [5, 6, 7] 1 =
      (ccf (([1, 2] : List ℝ).take (min ([1, 2] : List ℝ).length ([5, 6, 7] : List ℝ).length))
        (([5, 6, 7] : List ℝ).take (min ([1, 2] : List ℝ).length
          ([5, 6, 7] : List ℝ).length))).take ((1 : ℤ) + 1).toNat ∧
      (correlogramPair [1, 2] [5, 6, 7] 1).length = ((1 : ℤ) + 1).toNat) :=
  ⟨⟨by norm_num, by simp⟩,
    lag_slice_amended [1, 2] [5, 6, 7] 1 (by norm_num) (by simp)⟩

/-! ### QuantileCurveBuilder: embedding of `qq_plot` (source lines 41-46, 79-92) -/

/-- Loop filling a numpy zeros array: `np.zeros(n)` followed by `arr[i] = f(i)`
for `i in range(n)` — the loop shape of source lines 42-46 and 79-83. -/
def npZerosFill (n : ℕ) (f : ℕ → ℝ) : List ℝ :=
  (List.range n).foldl (fun acc i => acc.set i (f i)) (List.replicate n 0)

lemma npZerosFill_aux_length (f : ℕ → ℝ) (m : ℕ) (l : List ℝ) :
    ((List.range m).foldl (fun acc i => acc.set i (f i)) l).length = l.length := by
  induction m generalizing l with
  | zero => rfl
  | succ m ih =>
    rw [List.range_succ, List.foldl_append]
    simp only [List.foldl_cons, List.foldl_nil, List.length_set]
    exact ih l

lemma npZerosFill_aux_getD (f : ℕ → ℝ) (m : ℕ) (l : List ℝ) (k : ℕ)
    (hk : k < m) (hm : m ≤ l.length) :
    ((List.range m).foldl (fun acc i => acc.set i (f i)) l).getD k 0 = f k := by
  induction m generalizing l with
  | zero => omega
  | succ m ih =>
    rw [List.range_succ, List.foldl_append]
    simp only [List.foldl_cons, List.foldl_nil]
    have hlen : ((List.range m).foldl (fun acc i => acc.set i (f i)) l).length = l.length :=
      npZerosFill_aux_length f m l
    by_cases hkm : k = m
    · subst hkm
      rw [List.getD_eq_getElem _ _ (by rw [List.length_set, hlen]; omega)]
      exact List.getElem_set_self _
    · rw [List.getD_eq_getElem _ _ (by rw [List.length_set, hlen]; omega),
        List.getElem_set_ne (fun hc => hkm hc.symm),
        ← List.getD_eq_getElem _ 0 (by rw [hlen]; omega)]
      exact ih l (by omega) (by omega)

lemma npZerosFill_length (n : ℕ) (f : ℕ → ℝ) : (npZerosFill n f).length = n := by
  rw [npZerosFill, npZerosFill_aux_length, List.length_replicate]

lemma npZerosFill_getD (f : ℕ → ℝ) {n k : ℕ} (hk : k < n) :
    (npZerosFill n f).getD k 0 = f k :=
  npZerosFill_aux_getD f n (List.replicate n 0) k hk (by rw [List.length_replicate])

/-- The theoretical quantile array of `qq_plot` (source lines 41-46): a zeros
array of size `number_of_quantiles` filled with `-log(1 - q)` (inverse CDF of
the standard exponential distribution) at grid level `q = quantile_levels[i]`,
where `quantile_levels = np.linspace(q_min, q_max, number_of_quantiles)`. -/
noncomputable def theoreticalQuantiles (qmin qmax : ℝ) (n : ℕ) : List ℝ :=
  npZerosFill n fun i => -Real.log (1 - (linspace qmin qmax n).getD i 0)

/-- Value of `np.percentile(l, p)` with the default linear interpolation
between order statistics: with `s` the sorted data and `h = (len-1)*p/100`,
the value is `s[⌊h⌋] + (h - ⌊h⌋) * (s[⌊h⌋+1] - s[⌊h⌋])` (the out-of-range
access `s[⌊h⌋+1]` at `p = 100` is defaulted to `s[⌊h⌋]`; its coefficient is
then zero). -/
noncomputable def percentileVal (l : List ℝ) (p : ℝ) : ℝ :=
  let s := List.insertionSort (· ≤ ·) l
  let h : ℝ := ((s.length : ℝ) - 1) * p / 100
  let i : ℕ := (⌊h⌋).toNat
  s.getD i 0 + (h - (⌊h⌋ : ℝ)) * (s.getD (i + 1) (s.getD i 0) - s.getD i 0)

/-- Embedding of `np.percentile(l, p)`: undefined (an error in numpy) for an
empty sequence or an out-of-range percentile, otherwise `percentileVal`. -/
noncomputable def npPercentile (l : List ℝ) (p : ℝ) : Option ℝ :=
  if l.length = 0 ∨ p < 0 ∨ 100 < p then none
  else some (percentileVal l p)

/-- The empirical quantile loop of `qq_plot` for one residual sequence (source
lines 79-83 and 88-92): `np.percentile(res, q*100)` at each grid level; the
loop fails at its first undefined percentile (empty residual sequence). -/
noncomputable def empiricalQuantiles (res : List ℝ) (levels : List ℝ) :
    Option (List ℝ) :=
  levels.mapM fun q => npPercentile res (q * 100)

/-- One QuantileCurve of `qq_plot`: the shared theoretical array paired with
one event type's empirical array. -/
noncomputable def qqCurve (res : List ℝ) (qmin qmax : ℝ) (n : ℕ) :
    Option (List ℝ × List ℝ) :=
  (empiricalQuantiles res (linspace qmin qmax n)).map
    fun emp => (theoreticalQuantiles qmin qmax n, emp)

/-- Single-model QuantileCurveBuilder: one curve per event type
(source lines 78-84 over `n < dim`). -/
noncomputable def qqSingle (residuals : List (List ℝ)) (qmin qmax : ℝ) (n : ℕ) :
    Option (List (List ℝ × List ℝ)) :=
  residuals.mapM fun res => qqCurve res qmin qmax n

/-- Multi-model QuantileCurveBuilder: one curve per (model, event type)
(source lines 86-94). -/
noncomputable def qqMulti (models : List (List (List ℝ))) (qmin qmax : ℝ) (n : ℕ) :
    Option (List (List (List ℝ × List ℝ))) :=
  models.mapM fun model => qqSingle model qmin qmax n

/-! ### Lemmas on Option-valued traversals -/

lemma mapM_eq_some_map {α β : Type} (f : α → Option β) (g : α → β) (l : List α)
    (h : ∀ x ∈ l, f x = some (g x)) : l.mapM f = some (l.map g) := by
  induction l with
  | nil => rfl
  | cons a as ih =>
    rw [List.mapM_cons, h a (List.mem_cons_self a as),
      ih fun x hx => h x (List.mem_cons_of_mem a hx)]
    rfl

lemma mapM_eq_none_of_mem {α β : Type} (f : α → Option β) (l : List α) (x : α)
    (hx : x ∈ l) (hfx : f x = none) : l.mapM f = none := by
  induction l with
  | nil => simp at hx
  | cons a as ih =>
    rw [List.mapM_cons]
    rcases List.mem_cons.mp hx with h1 | h2
    · subst h1
      rw [hfx]
      rfl
    · cases hfa : f a with
      | none => rfl
      | some b =>
        rw [ih h2]
        rfl

lemma map_getD {α β : Type} (f : α → β) (l : List α) (d : β) (d' : α) {i : ℕ}
    (hi : i < l.length) : (l.map f).getD i d = f (l.getD i d') := by
  rw [List.getD_eq_getElem _ _ (by simpa using hi), List.getElem_map,
    ← List.getD_eq_getElem l d' hi]

lemma linspace_mem_bounds {qmin qmax : ℝ} {n : ℕ} (h : qmin ≤ qmax) {q : ℝ}
    (hq : q ∈ linspace qmin qmax n) : qmin ≤ q ∧ q ≤ qmax := by
  rw [linspace, List.mem_map] at hq
  obtain ⟨i, hi, rfl⟩ := hq
  rw [List.mem_range] at hi
  have hn1 : (1 : ℝ) ≤ (n : ℝ) := by exact_mod_cast Nat.one_le_iff_ne_zero.mpr (by omega)
  constructor
  · have hnum : 0 ≤ (i : ℝ) * (qmax - qmin) := by
      have := sub_nonneg.mpr h
      positivity
    have hden : 0 ≤ (n : ℝ) - 1 := by linarith
    have := div_nonneg hnum hden
    linarith
  · by_cases hn : n = 1
    · subst hn
      have hi0 : i = 0 := by omega
      subst hi0
      simp only [Nat.cast_zero, zero_mul, Nat.cast_one]
      norm_num
      exact h
    · have hd : (0 : ℝ) < (n : ℝ) - 1 := by
        have : (2 : ℝ) ≤ (n : ℝ) := by exact_mod_cast (by omega : 2 ≤ n)
        linarith
      have hi' : (i : ℝ) ≤ (n : ℝ) - 1 := by
        have : (i : ℝ) + 1 ≤ (n : ℝ) := by exact_mod_cast hi
        linarith
      have key : (i : ℝ) * (qmax - qmin) / ((n : ℝ) - 1) ≤ qmax - qmin := by
        rw [div_le_iff₀ hd]
        nlinarith [sub_nonneg.mpr h]
      linarith

lemma npPercentile_some {l : List ℝ} {p : ℝ} (hl : l ≠ []) (h0 : 0 ≤ p) (h1 : p ≤ 100) :
    npPercentile l p = some (percentileVal l p) := by
  rw [npPercentile, if_neg]
  push_neg
  exact ⟨by simpa [List.length_eq_zero] using hl, h0, h1⟩

/-- C1.  QuantileCurveBuilder postcondition (source lines 41-46 and 79-92): on a
grid of `n` equally spaced levels from `q_min` to `q_max`, the builder returns,
for every model and every event type, the pair of the theoretical array and the
empirical array; index `k` of the theoretical array is `-ln(1 - q_k)` and index
`k` of the empirical array is the `(q_k * 100)`-th percentile (linear
interpolation between order statistics) of that event type's residuals, with
`q_k = q_min + k*(q_max - q_min)/(n-1)`; the theoretical array is computed once
from the grid alone and is the same term for every model and event type. -/
theorem qq_curves (models : List (List (List ℝ))) (qmin qmax : ℝ) (n : ℕ)
    (h0 : 0 ≤ qmin) (h1 : qmin ≤ qmax) (h2 : qmax ≤ 1)
    (hne : ∀ model ∈ models, ∀ res ∈ model, res ≠ []) :
    qqMulti models qmin qmax n =
      some (models.map fun model => model.map fun res =>
        (theoreticalQuantiles qmin qmax n,
          (linspace qmin qmax n).map fun q => percentileVal res (q * 100))) ∧
    (∀ k, k < n → (theoreticalQuantiles qmin qmax n).getD k 0 =
      -Real.log (1 - (qmin + k * (qmax - qmin) / ((n : ℝ) - 1)))) ∧
    (∀ (res : List ℝ) (k : ℕ), k < n →
      ((linspace qmin qmax n).map fun q => percentileVal res (q * 100)).getD k 0 =
        percentileVal res ((qmin + k * (qmax - qmin) / ((n : ℝ) - 1)) * 100)) ∧
    (∀ mi ei, mi < models.length → ei < (models.getD mi []).length →
      Prod.fst (((models.map fun model => model.map fun res =>
        (theoreticalQuantiles qmin qmax n,
          (linspace qmin qmax n).map fun q => percentileVal res (q * 100))).getD mi
            []).getD ei ([], [])) = theoreticalQuantiles qmin qmax n) := by
  refine ⟨?_, ?_, ?_, ?_⟩
  · apply mapM_eq_some_map
    intro model hmodel
    apply mapM_eq_some_map
    intro res hres
    rw [qqCurve]
    have hemp : empiricalQuantiles res (linspace qmin qmax n) =
        some ((linspace qmin qmax n).map fun q => percentileVal res (q * 100)) := by
      apply mapM_eq_some_map
      intro q hq
      have hb := linspace_mem_bounds h1 hq
      refine npPercentile_some (hne model hmodel res hres) ?_ ?_
      · have : 0 ≤ q := le_trans h0 hb.1
        linarith
      · have : q ≤ 1 := le_trans hb.2 h2
        linarith
    rw [hemp]
    rfl
  · intro k hk
    rw [theoreticalQuantiles, npZerosFill_getD _ hk, linspace_getD hk]
  · intro res k hk
    have hcomp : ((linspace qmin qmax n).map fun q => percentileVal res (q * 100)) =
        (List.range n).map fun i : ℕ =>
          percentileVal res ((qmin + (i : ℝ) * (qmax - qmin) / ((n : ℝ) - 1)) * 100) := by
      rw [linspace, List.map_map]
      rfl
    rw [hcomp]
    exact rangeMap_getD _ 0 hk
  · intro mi ei hmi hei
    rw [map_getD _ _ _ [] hmi, map_getD _ _ _ [] hei]

/-- Witness for C1: one model, one event type with residuals `[1]`, a single
grid level `q_min = q_max = 1/2`. -/
theorem qq_curves_witness :
    ((0 : ℝ) ≤ 1 / 2 ∧ (1 / 2 : ℝ) ≤ 1 / 2 ∧ (1 / 2 : ℝ) ≤ 1 ∧
      (∀ model ∈ ([[[1]]] : List (List (List ℝ))), ∀ res ∈ model, res ≠ [])) ∧
    (qqMulti [[[1]]] (1 / 2) (1 / 2) 1 =
      some (([[[1]]] : List (List (List ℝ))).map fun model => model.map fun res =>
        (theoreticalQuantiles (1 / 2) (1 / 2) 1,
          (linspace (1 / 2) (1 / 2) 1).map fun q => percentileVal res (q * 100))) ∧
    (∀ k, k < 1 → (theoreticalQuantiles (1 / 2) (1 / 2) 1).getD k 0 =
      -Real.log (1 - (1 / 2 + k * (1 / 2 - 1 / 2) / (((1 : ℕ) : ℝ) - 1)))) ∧
    (∀ (res : List ℝ) (k : ℕ), k < 1 →
      ((linspace (1 / 2) (1 / 2) 1).map fun q => percentileVal res (q * 100)).getD k 0 =
        percentileVal res ((1 / 2 + k * (1 / 2 - 1 / 2) / (((1 : ℕ) : ℝ) - 1)) * 100)) ∧
    (∀ mi ei, mi < ([[[1]]] : List (List (List ℝ))).length →
      ei < (([[[1]]] : List (List (List ℝ))).getD mi []).length →
      Prod.fst (((([[[1]]] : List (List (List ℝ))).map fun model => model.map fun res =>
        (theoreticalQuantiles (1 / 2) (1 / 2) 1,
          (linspace (1 / 2) (1 / 2) 1).map fun q => percentileVal res (q * 100))).getD mi
            []).getD ei ([], [])) = theoreticalQuantiles (1 / 2) (1 / 2) 1)) :=
  ⟨⟨by norm_num, le_refl _, by norm_num, by simp⟩,
    qq_curves [[[1]]] (1 / 2) (1 / 2) 1 (by norm_num) (le_refl _) (by norm_num) (by simp)⟩

/-- C8.  QuantileCurveBuilder with an empty residual sequence (source lines
79-83): `np.percentile` of an empty sequence is undefined (numpy refuses it),
so the builder fails — in this embedding, returns `none` — before producing any
output, in both the single-model and the multi-model case; no partial result
and no NaN-filled array is returned. -/
theorem qq_empty_residuals_fail (residuals : List (List ℝ))
    (models : List (List (List ℝ))) (model : List (List ℝ)) (qmin qmax : ℝ) (n : ℕ)
    (hn : 0 < n) (h1 : [] ∈ residuals) (h2 : model ∈ models) (h3 : [] ∈ model) :
    qqSingle residuals qmin qmax n = none ∧ qqMulti models qmin qmax n = none := by
  have hcurve : qqCurve [] qmin qmax n = none := by
    rw [qqCurve]
    have hlev : linspace qmin qmax n ≠ [] := by
      have := linspace_length qmin qmax n
      intro hc
      rw [hc] at this
      simp at this
      omega
    obtain ⟨q, hq⟩ := List.exists_mem_of_ne_nil _ hlev
    have hemp : empiricalQuantiles [] (linspace qmin qmax n) = none := by
      apply mapM_eq_none_of_mem _ _ q hq
      rw [npPercentile, if_pos]
      left
      rfl
    rw [hemp]
    rfl
  refine ⟨mapM_eq_none_of_mem _ _ [] h1 hcurve, ?_⟩
  apply mapM_eq_none_of_mem _ _ model h2
  exact mapM_eq_none_of_mem _ _ [] h3 hcurve

/-- Witness for C8 at `residuals = [[]]`, `models = [[[]]]`, one grid level. -/
theorem qq_empty_residuals_fail_witness :
    (0 < 1 ∧ ([] : List ℝ) ∈ ([[]] : List (List ℝ)) ∧
      ([[]] : List (List ℝ)) ∈ ([[[]]] : List (List (List ℝ))) ∧
      ([] : List ℝ) ∈ ([[]] : List (List ℝ))) ∧
    (qqSingle [[]] 0 1 1 = none ∧ qqMulti [[[]]] 0 1 1 = none) :=
  ⟨⟨by norm_num, by simp, by simp, by simp⟩,
    qq_empty_residuals_fail [[]] [[[]]] [[]] 0 1 1 (by norm_num) (by simp) (by simp) (by simp)⟩

/-! ### Single- versus multi-model dispatch (source lines 48-52 and 142-146) -/

/-- A Python value as far as the dispatch test is concerned: a number, or a
list/array of further values.  The source tests
`type(residuals[0][0]) in [list, np.ndarray]`. -/
inductive PyVal where
  | num (x : ℝ)
  | arr (l : List PyVal)

/-- The input dispatch shared by `qq_plot` (lines 48-52) and `correlogram`
(lines 142-146): inspect `residuals[0][0]` (`none` models the IndexError when
that access fails); when it is a list/array, `n_models = len(residuals)` and
`dim = len(residuals[0])`, otherwise `n_models = 1` and `dim = len(residuals)`. -/
def classify (residuals : List (List PyVal)) : Option (ℕ × ℕ) :=
  match residuals with
  | [] => none
  | r0 :: rest =>
    match r0 with
    | [] => none
    | x :: _ =>
      match x with
      | .arr _ => some ((r0 :: rest).length, r0.length)
      | .num _ => some (1, (r0 :: rest).length)

/-- The subplot traversal of `qq_plot` (source lines 64-67): over the cells
`(i, j)` of a `v_size × h_size` grid, the event type `n = j + h_size*i` is
processed whenever `n < dim`; this is the list of event-type indices actually
computed, in traversal order. -/
def qqComputedIndices (vsize hsize dim : ℕ) : List ℕ :=
  (List.range vsize).flatMap fun i =>
    (List.range hsize).filterMap fun j =>
      if j + hsize * i < dim then some (j + hsize * i) else none

lemma filterMap_if_lt (c dim : ℕ) (L : List ℕ) :
    (L.filterMap fun j => if j + c < dim then some (j + c) else none) =
      (L.map fun j => j + c).filter fun n => n < dim := by
  induction L with
  | nil => rfl
  | cons a as ih =>
    simp only [List.filterMap_cons, List.map_cons, List.filter_cons]
    by_cases h : a + c < dim
    · rw [if_pos h]
      simp [h, ih]
    · rw [if_neg h]
      simp [h, ih]

lemma filter_range_lt (N dim : ℕ) :
    ((List.range N).filter fun n => n < dim) = List.range (min dim N) := by
  induction N with
  | zero => simp
  | succ N ih =>
    rw [List.range_succ, List.filter_append, ih]
    by_cases h : N < dim
    · have hmin : min dim (N + 1) = min dim N + 1 := by omega
      have hN : min dim N = N := by omega
      rw [hmin, List.range_succ, hN]
      simp [h]
    · have hmin : min dim (N + 1) = min dim N := by omega
      rw [hmin]
      simp [h]

lemma qqComputedIndices_eq (vsize hsize dim : ℕ) :
    qqComputedIndices vsize hsize dim = List.range (min dim (vsize * hsize)) := by
  induction vsize with
  | zero => simp [qqComputedIndices]
  | succ v ih =>
    rw [qqComputedIndices, List.range_succ, List.flatMap_append]
    have hfold : ((List.range v).flatMap fun i =>
        (List.range hsize).filterMap fun j =>
          if j + hsize * i < dim then some (j + hsize * i) else none) =
        qqComputedIndices v hsize dim := rfl
    rw [hfold, ih]
    have hsingle : (([v] : List ℕ).flatMap fun i =>
        (List.range hsize).filterMap fun j =>
          if j + hsize * i < dim then some (j + hsize * i) else none) =
        (List.range hsize).filterMap fun j =>
          if j + hsize * v < dim then some (j + hsize * v) else none := by
      simp [List.flatMap_cons]
    rw [hsingle, filterMap_if_lt (hsize * v) dim (List.range hsize)]
    conv_rhs => rw [show (v + 1) * hsize = v * hsize + hsize by ring,
      ← filter_range_lt (v * hsize + hsize) dim, List.range_add, List.filter_append,
      filter_range_lt]
    congr 1
    congr 1
    apply List.map_congr_left
    intro a _
    ring

lemma mapM_some_length {α β : Type} (f : α → Option β) : ∀ (l : List α) (r : List β),
    l.mapM f = some r → r.length = l.length := by
  intro l
  induction l with
  | nil =>
    intro r h
    rw [List.mapM_nil] at h
    cases h
    rfl
  | cons a as ih =>
    intro r h
    rw [List.mapM_cons] at h
    cases hfa : f a with
    | none =>
      rw [hfa] at h
      simp at h
    | some b =>
      rw [hfa] at h
      cases hrest : as.mapM f with
      | none =>
        rw [hrest] at h
        simp at h
      | some bs =>
        rw [hrest] at h
        simp at h
        subst h
        rw [List.length_cons, List.length_cons, ih bs hrest]

/-- C10.  Input dispatch (source lines 48-52 and 142-146): both transforms
classify the input by the runtime type of `residuals[0][0]` — a list/array
means multi-model with `n_models = len(residuals)`, `dim = len(residuals[0])`;
anything else means single-model with `n_models = 1`, `dim = len(residuals)` —
and the per-event-type computations then cover exactly `dim` event types (for a
subplot grid covering `dim`), `dim × dim` cells for the correlogram, with
`n_models` computations per cell (and one curve per model and event type in the
multi-model quantile builder). -/
theorem model_dispatch (w : List PyVal) (x : ℝ) (r0 : List PyVal)
    (rest : List (List PyVal)) (v h dim : ℕ) (residuals : List (List ℝ))
    (models : List (List (List ℝ))) (nl : ℤ) (qmin qmax : ℝ) (nq : ℕ) (i j : ℕ)
    (hdim : dim ≤ v * h) (hi : i < residuals.length)
    (him : i < (models.headD []).length) (hjm : j < (models.headD []).length) :
    classify ((PyVal.arr w :: r0) :: rest) = some (rest.length + 1, r0.length + 1) ∧
    classify ((PyVal.num x :: r0) :: rest) = some (1, rest.length + 1) ∧
    qqComputedIndices v h dim = List.range dim ∧
    (correlogramSingle residuals nl).length = residuals.length ∧
    ((correlogramSingle residuals nl).getD i []).length = residuals.length ∧
    (correlogramMulti models nl).length = (models.headD []).length ∧
    ((correlogramMulti models nl).getD i []).length = (models.headD []).length ∧
    (((correlogramMulti models nl).getD i []).getD j []).length = models.length ∧
    (∀ out, qqMulti models qmin qmax nq = some out → out.length = models.length) := by
  refine ⟨by simp [classify], by simp [classify], ?_, ?_, ?_, ?_, ?_, ?_, ?_⟩
  · rw [qqComputedIndices_eq]
    congr 1
    omega
  · exact rangeMap_length _ _
  · rw [correlogramSingle, rangeMap_getD _ _ hi]
    exact rangeMap_length _ _
  · exact rangeMap_length _ _
  · rw [correlogramMulti, rangeMap_getD _ _ him]
    exact rangeMap_length _ _
  · rw [correlogramMulti, rangeMap_getD _ _ him, rangeMap_getD _ _ hjm]
    exact rangeMap_length _ _
  · intro out hout
    exact mapM_some_length _ models out hout

/-- Witness for C10 at a concrete grid (2×2 covering 3 event types) and
concrete single- and multi-model inputs. -/
theorem model_dispatch_witness :
    (3 ≤ 2 * 2 ∧ 0 < ([[1], [2]] : List (List ℝ)).length ∧
      0 < (([[[1]]] : List (List (List ℝ))).headD []).length) ∧
    (classify ((PyVal.arr [] :: []) :: []) = some ((0 : ℕ) + 1, (0 : ℕ) + 1) ∧
    classify ((PyVal.num 0 :: []) :: []) = some (1, (0 : ℕ) + 1) ∧
    qqComputedIndices 2 2 3 = List.range 3 ∧
    (correlogramSingle [[1], [2]] 0).length = ([[1], [2]] : List (List ℝ)).length ∧
    ((correlogramSingle [[1], [2]] 0).getD 0 []).length =
      ([[1], [2]] : List (List ℝ)).length ∧
    (correlogramMulti [[[1]]] 0).length = (([[[1]]] : List (List (List ℝ))).headD []).length ∧
    ((correlogramMulti [[[1]]] 0).getD 0 []).length =
      (([[[1]]] : List (List (List ℝ))).headD []).length ∧
    (((correlogramMulti [[[1]]] 0).getD 0 []).getD 0 []).length =
      ([[[1]]] : List (List (List ℝ))).length ∧
    (∀ out, qqMulti [[[1]]] 0 1 1 = some out →
      out.length = ([[[1]]] : List (List (List ℝ))).length)) :=
  ⟨⟨by norm_num, by simp, by simp⟩,
    model_dispatch [] 0 [] [] 2 2 3 [[1], [2]] [[[1]]] 0 0 1 1 0 0
      (by norm_num) (by simp) (by simp) (by simp)⟩

end PlotTools
